import Mathlib

/-!
Verification of the Program assembly and query layer
(`quokka/program.py`): a shallow embedding of the constructor's index
building, the chunk / function / instruction lookups, the chunk
iterator, the call-graph builder and the `from_binary` orchestration,
together with theorems settling the specified properties.

Collaborating classes that live outside the exported source
(`quokka.Function`, `quokka.Chunk`, `quokka.SuperChunk`,
`quokka.analysis.split_chunk`, `quokka.types.FunctionType`) are modelled
from the spec where their behaviour matters; each such definition says so
in its doc comment.
-/

set_option autoImplicit false

universe u v

namespace Quokka

/-- Modelled from the spec: the member list of `FunctionType`
(`quokka/types.py` is not among the exported sources).  The spec names
normal, imported/extern, library, thunk and fake/invalid kinds; the exact
roster only matters through "NORMAL vs. everything else" and through
`list(FunctionType)` being the full roster. -/
inductive FunctionType where
  | NORMAL
  | IMPORTED
  | LIBRARY
  | THUNK
  | EXTERN
  | INVALID
deriving DecidableEq

/-- `list(FunctionType)`, the default allow-list in `iter_chunk`. -/
def allFunctionTypes : List FunctionType :=
  [.NORMAL, .IMPORTED, .LIBRARY, .THUNK, .EXTERN, .INVALID]

/-- A function record with the fields that `Program.__init__`, the name
index and `get_function` read: start address, name and type.
(`quokka.Function` carries more state, none of it read here.) -/
structure Function where
  start : Nat
  name : String
  type : FunctionType
deriving DecidableEq

/-- Python `==` between a `FunctionType` enum member and a `Function`
object — the comparison written at `program.py:161`,
`function.type == self.fun_names[function.name]`.  The operands have
unrelated types and neither side defines a cross-type `__eq__`, so the
comparison is `False` for every pair of values. -/
def funTypeEqFunctionObj (_t : FunctionType) (_f : Function) : Bool := false

/-- First-match association-list lookup: Python `dict` lookup order on a
list of insertions with distinct keys. -/
def alistLookup {κ : Type u} {α : Type v} [DecidableEq κ] :
    List (κ × α) → κ → Option α
  | [], _ => none
  | (k, v) :: rest, q => if k = q then some v else alistLookup rest q

/-- Python `d[k] = v`: update in place when the key exists (its position
is kept), append otherwise. -/
def alistSet {κ : Type u} {α : Type v} [DecidableEq κ] :
    List (κ × α) → κ → α → List (κ × α)
  | [], q, a => [(q, a)]
  | (k, v) :: rest, q, a =>
      if k = q then (k, a) :: rest else (k, v) :: alistSet rest q a

/-- One round of the name-index loop of `Program.__init__`
(`program.py:158`–`165`): insert when the name is unseen; otherwise the
(dead, see `funTypeEqFunctionObj`) same-object comparison, then replace
exactly when the incoming function's type is NORMAL. -/
def insertFunName (m : List (String × Function)) (f : Function) :
    List (String × Function) :=
  match alistLookup m f.name with
  | none => alistSet m f.name f
  | some existing =>
      if funTypeEqFunctionObj f.type existing then
        m
      else if f.type = FunctionType.NORMAL then
        alistSet m f.name f
      else
        m

/-- The `fun_names` index after the constructor's function loop. -/
def buildFunNames (funcs : List Function) : List (String × Function) :=
  funcs.foldl insertFunName []

/-- The address-keyed mapping part of `Program` (`self[function.start] =
function`): plain dict assignment, last writer wins. -/
def buildFuncsByStart (funcs : List Function) : List (Nat × Function) :=
  funcs.foldl (fun m f => alistSet m f.start f) []

/-- A chunk with the fields the Program-level queries read: address
range, type, recorded call targets and instruction head addresses. -/
structure Chunk where
  start : Nat
  endAddr : Nat
  chunk_type : FunctionType
  calls : List Nat
  instructions : List Nat
deriving DecidableEq

/-- An instruction, identified by its head address inside the chunk that
answered the query. -/
structure Instruction where
  chunk_start : Nat
  address : Nat
deriving DecidableEq

/-- Modelled from the spec: `Chunk.in_chunk` (`quokka/function.py` is not
among the exported sources) — range membership of an address. -/
def Chunk.in_chunk (c : Chunk) (a : Nat) : Bool :=
  decide (c.start ≤ a) && decide (a < c.endAddr)

/-- Modelled from the spec: `Chunk.get_instruction` — the instruction
whose head is exactly `a`; `none` stands for the `IndexError` raised when
`a` is not an instruction head of this chunk. -/
def Chunk.get_instruction (c : Chunk) (a : Nat) : Option Instruction :=
  if a ∈ c.instructions then some ⟨c.start, a⟩ else none

/-- Modelled from the spec: a `SuperChunk` aggregates constituent chunks
keyed by `(chunk_index, block_index)`, in ascending block order. -/
structure SuperChunk where
  chunks : List ((Nat × Nat) × Chunk)
deriving DecidableEq

/-- `SuperChunk.values()`: the constituent chunks in key order. -/
def SuperChunk.values (s : SuperChunk) : List Chunk :=
  s.chunks.map Prod.snd

/-- Modelled from the spec: `SuperChunk.starts` maps each constituent's
start address to the constituent itself; its `.values()` are the
constituents. -/
def SuperChunk.starts (s : SuperChunk) : List (Nat × Chunk) :=
  s.chunks.map (fun bc => (bc.2.start, bc.2))

/-- Modelled from the spec: `SuperChunk.get_chunk_by_index` resolves a
constituent by its `(chunk_index, block_index)` key. -/
def SuperChunk.get_chunk_by_index (s : SuperChunk) (ci : Nat) (bi : Nat) :
    Option Chunk :=
  alistLookup s.chunks (ci, bi)

/-- An entry of `Program.chunks`: every index maps to exactly one of
`Chunk` or `SuperChunk`. -/
inductive ChunkEntry where
  | chunk (c : Chunk)
  | superChunk (s : SuperChunk)
deriving DecidableEq

/-- The exceptions the embedded operations can raise, one constructor per
distinct raise site. -/
inductive QuokkaError where
  | hashMismatch
  | chunkMissingSuperChunk
  | chunkMissingUnknown
  | keyErrorConstituent
  | valueErrorMissingFunction
  | valueErrorNoMatch
  | indexErrorNoInstruction
deriving DecidableEq

/-- The state of a constructed `Program` that the queries read. -/
structure ProgramState where
  chunks : List (Nat × ChunkEntry)
  fun_names : List (String × Function)
  funcsByStart : List (Nat × Function)
deriving DecidableEq

/-- `Program.get_chunk` (`program.py:381`–`411`): an ordinary chunk is
returned as is (any supplied `block_index` unread); a super chunk demands
a `block_index` and resolves through it; an unknown index fails. -/
def get_chunk (p : ProgramState) (chunk_index : Nat)
    (block_index : Option Nat) : Except QuokkaError Chunk :=
  match alistLookup p.chunks chunk_index with
  | some (ChunkEntry.chunk c) => Except.ok c
  | some (ChunkEntry.superChunk s) =>
      match block_index with
      | none => Except.error QuokkaError.chunkMissingSuperChunk
      | some bi =>
          match s.get_chunk_by_index chunk_index bi with
          | some c => Except.ok c
          | none => Except.error QuokkaError.keyErrorConstituent
  | none => Except.error QuokkaError.chunkMissingUnknown

/-- Concatenation of a list of lists (the shape of a generator that
yields from nested loops). -/
def flatAll {α : Type u} : List (List α) → List α
  | [] => []
  | l :: ls => l ++ flatAll ls

/-- `Program.iter_chunk` (`program.py:413`–`441`): walk the chunk map in
order, flatten super chunks into their constituents, keep the chunks
whose type is in the allow-list (default: every type). -/
def iter_chunk (p : ProgramState) (chunk_types : Option (List FunctionType)) :
    List Chunk :=
  let types := match chunk_types with
    | none => allFunctionTypes
    | some ts => ts
  flatAll (p.chunks.map (fun kv =>
    match kv.2 with
    | ChunkEntry.superChunk s =>
        s.values.filter (fun c => decide (c.chunk_type ∈ types))
    | ChunkEntry.chunk c =>
        if c.chunk_type ∈ types then [c] else []))

/-- Range membership for a chunk-map entry; on a super chunk, membership
in any constituent (modelled from the spec, the class is not among the
exported sources). -/
def ChunkEntry.in_chunk : ChunkEntry → Nat → Bool
  | ChunkEntry.chunk c, a => c.in_chunk a
  | ChunkEntry.superChunk s, a => s.values.any (fun c => c.in_chunk a)

/-- Instruction lookup on a chunk-map entry; on a super chunk, the first
constituent holding the head answers (modelled from the spec). -/
def ChunkEntry.get_instruction : ChunkEntry → Nat → Option Instruction
  | ChunkEntry.chunk c, a => c.get_instruction a
  | ChunkEntry.superChunk s, a =>
      match s.values.find? (fun c => (c.get_instruction a).isSome) with
      | some c => c.get_instruction a
      | none => none

/-- The scan loop of `Program.get_instruction` (`program.py:262`–`269`):
each entry whose range holds the address is asked for the instruction;
an `IndexError` from the entry is swallowed and the scan continues. -/
def get_instruction_loop : List (Nat × ChunkEntry) → Nat →
    Except QuokkaError Instruction
  | [], _ => Except.error QuokkaError.indexErrorNoInstruction
  | kv :: rest, a =>
      if kv.2.in_chunk a then
        match kv.2.get_instruction a with
        | some ins => Except.ok ins
        | none => get_instruction_loop rest a
      else get_instruction_loop rest a

/-- `Program.get_instruction` (`program.py:246`–`269`). -/
def get_instruction (p : ProgramState) (a : Nat) :
    Except QuokkaError Instruction :=
  get_instruction_loop p.chunks a

/-- Python `needle in hay` on strings: substring containment. -/
def strContains (hay needle : String) : Bool :=
  (List.range (hay.data.length + 1)).any
    (fun i => needle.data.isPrefixOf (hay.data.drop i))

/-- The approximate-scan condition of `get_function`
(`program.py:295`–`297`): `name in function.name and (not normal or
function.type == FunctionType.NORMAL)`. -/
def approxPred (name : String) (normal : Bool) (kv : String × Function) :
    Bool :=
  strContains kv.2.name name &&
    (!normal || decide (kv.2.type = FunctionType.NORMAL))

/-- `Program.get_function` (`program.py:271`–`300`): exact dict lookup
when `approximative` is false; otherwise the first entry, in index
order, whose name has `name` as substring and passes the NORMAL-only
filter. -/
def get_function (p : ProgramState) (name : String) (approximative : Bool)
    (normal : Bool) : Except QuokkaError Function :=
  if approximative = false then
    match alistLookup p.fun_names name with
    | some f => Except.ok f
    | none => Except.error QuokkaError.valueErrorMissingFunction
  else
    match p.fun_names.find? (approxPred name normal) with
    | some kv => Except.ok kv.2
    | none => Except.error QuokkaError.valueErrorNoMatch

/-- The edges one chunk-map entry contributes to the call graph
(`program.py:194`–`207`): an ordinary chunk sends an edge from its start
to each recorded call target; a super chunk contributes, for each
constituent reached through `starts.values()`, an edge from the
constituent's own start to each of its targets. -/
def entryEdges : ChunkEntry → List (Nat × Nat)
  | ChunkEntry.chunk c => c.calls.map (fun t => (c.start, t))
  | ChunkEntry.superChunk s =>
      flatAll ((s.starts.map Prod.snd).map
        (fun c => c.calls.map (fun t => (c.start, t))))

/-- The nodes one entry contributes: an ordinary chunk's start is added
unconditionally (`add_node`), and `add_edges_from` adds both endpoints
of every edge; a super chunk contributes only its edges' endpoints. -/
def entryNodes : ChunkEntry → List Nat
  | ChunkEntry.chunk c =>
      c.start :: flatAll (c.calls.map (fun t => [c.start, t]))
  | ChunkEntry.superChunk s =>
      flatAll ((entryEdges (ChunkEntry.superChunk s)).map
        (fun e => [e.1, e.2]))

/-- The node set of `Program.call_graph` (a networkx `DiGraph` holds a
set of nodes: duplicates collapse). -/
def call_graph_nodes (p : ProgramState) : Finset Nat :=
  (flatAll (p.chunks.map (fun kv => entryNodes kv.2))).toFinset

/-- The edge set of `Program.call_graph` (duplicate edges collapse). -/
def call_graph_edges (p : ProgramState) : Finset (Nat × Nat) :=
  (flatAll (p.chunks.map (fun kv => entryEdges kv.2))).toFinset

/-- Out-degree of a node in the call graph. -/
def outDegree (p : ProgramState) (v : Nat) : Nat :=
  ((call_graph_edges p).filter (fun e => e.1 = v)).card

/-- In-degree of a node in the call graph. -/
def inDegree (p : ProgramState) (v : Nat) : Nat :=
  ((call_graph_edges p).filter (fun e => e.2 = v)).card

/-- A raw chunk record of the export, together with (for a fake record)
the constituents its split produces. -/
structure ChunkRecord where
  fake : Bool
  start : Nat
  endAddr : Nat
  chunk_type : FunctionType
  calls : List Nat
  instructions : List Nat
  constituents : List Chunk
deriving DecidableEq

/-- `enumerate`, starting at `i`. -/
def enumFrom {α : Type u} (i : Nat) : List α → List (Nat × α)
  | [] => []
  | a :: rest => (i, a) :: enumFrom (i + 1) rest

/-- One entry of the constructor's chunk loop (`program.py:145`–`151`).
`split_chunk` (`quokka/analysis`, not among the exported sources) is
modelled from the spec: a fake record splits into its constituents keyed
by `(chunk_index, block_index)`, block indices counted upward in
ascending start order. -/
def buildEntry (i : Nat) (r : ChunkRecord) : ChunkEntry :=
  if r.fake then
    ChunkEntry.superChunk
      ⟨(enumFrom 0 r.constituents).map (fun bc => ((i, bc.1), bc.2))⟩
  else
    ChunkEntry.chunk ⟨r.start, r.endAddr, r.chunk_type, r.calls, r.instructions⟩

/-- The chunk map built by the constructor's `enumerate` loop. -/
def buildChunks (records : List ChunkRecord) : List (Nat × ChunkEntry) :=
  (enumFrom 0 records).map (fun ir => (ir.1, buildEntry ir.1 ir.2))

/-- The deserialized export fields the constructor loops over. -/
structure ExportData where
  chunkRecords : List ChunkRecord
  functions : List Function
deriving DecidableEq

/-- Which containers of the `Program` under construction have been
populated; `none` = the attribute was never assigned. -/
structure BuildState where
  chunksBuilt : Option (List (Nat × ChunkEntry))
  funNamesBuilt : Option (List (String × Function))
  funcsByStartBuilt : Option (List (Nat × Function))
deriving DecidableEq

/-- `Program.__init__` after deserialization, at the granularity the
claims need: the version check only logs; the hash check
(`program.py:121`–`123`) aborts — before the chunk map or either
function map is assigned — exactly when `quokka.check_hash` is false;
then chunks, then functions are built. -/
def programInitTrace (e : ExportData) (hash_matches : Bool) :
    BuildState × Option QuokkaError :=
  if hash_matches = false then
    (⟨none, none, none⟩, some QuokkaError.hashMismatch)
  else
    (⟨some (buildChunks e.chunkRecords),
      some (buildFunNames e.functions),
      some (buildFuncsByStart e.functions)⟩, none)

/-- The `ProgramState` a successful construction yields. -/
def programOf (e : ExportData) : ProgramState :=
  ⟨buildChunks e.chunkRecords, buildFunNames e.functions,
    buildFuncsByStart e.functions⟩

/-- Outcome of the external exporter child process. -/
inductive ExporterOutcome where
  | completedOk
  | exitNonzero
  | timedOut
deriving DecidableEq

/-- The filesystem and process facts `from_binary` branches on. -/
structure FromBinaryEnv where
  execIsFile : Bool
  outputIsFile : Bool
  databaseIsFile : Bool
  outcome : ExporterOutcome
  outputFileAfter : Bool
deriving DecidableEq

/-- What a call to `from_binary` does, as observed by the caller. -/
inductive FromBinaryResult where
  | raisesFileNotFound
  | raisesTimeoutExpired
  | returnsNone
  | returnsProgram (loadedExisting : Bool)
deriving DecidableEq

/-- `Program.from_binary` (`program.py:462`–`547`): missing executable
raises `FileNotFoundError`; an existing export file is loaded directly;
otherwise the exporter runs with `check=True` under a timeout inside a
`try` whose sole handler is `except subprocess.CalledProcessError` — so
a nonzero exit yields `None`, while `subprocess.TimeoutExpired` (not a
subclass of `CalledProcessError`) propagates; a clean exit that left no
output file yields `None`, and otherwise the produced file is loaded.
The database-file branch only alters the command line. -/
def from_binary (env : FromBinaryEnv) : FromBinaryResult :=
  if env.execIsFile = false then
    FromBinaryResult.raisesFileNotFound
  else if env.outputIsFile then
    FromBinaryResult.returnsProgram true
  else
    match env.outcome with
    | ExporterOutcome.exitNonzero => FromBinaryResult.returnsNone
    | ExporterOutcome.timedOut => FromBinaryResult.raisesTimeoutExpired
    | ExporterOutcome.completedOk =>
        if env.outputFileAfter = false then
          FromBinaryResult.returnsNone
        else
          FromBinaryResult.returnsProgram false

/-- The chunks a single chunk-map entry stands for: itself, or the
constituents of a SuperChunk. -/
def entryValues : ChunkEntry → List Chunk
  | ChunkEntry.chunk c => [c]
  | ChunkEntry.superChunk s => s.values

/-- The constituent chunks of an entry as the call graph reaches them
(`starts.values()` for a SuperChunk). -/
def entryConstituents : ChunkEntry → List Chunk
  | ChunkEntry.chunk c => [c]
  | ChunkEntry.superChunk s => s.starts.map Prod.snd

/-- The `(chunk_index, block_index)` addresses one chunk-map entry
answers to: `(i, none)` for an ordinary chunk, `(i, some b)` for each
constituent of a SuperChunk. -/
def entryPairs (kv : Nat × ChunkEntry) : List (Nat × Option Nat) :=
  match kv.2 with
  | ChunkEntry.chunk _ => [(kv.1, none)]
  | ChunkEntry.superChunk s => s.chunks.map (fun bc => (kv.1, some bc.1.2))

/-- Every `(chunk_index, block_index)` address of the program, in chunk
map order. -/
def validPairs (p : ProgramState) : List (Nat × Option Nat) :=
  flatAll (p.chunks.map entryPairs)

/-- Strict ordering of block disambiguators: only two block indices of
the same SuperChunk compare. -/
def blockLt : Option Nat → Option Nat → Prop
  | some x, some y => x < y
  | _, _ => False

instance : (a b : Option Nat) → Decidable (blockLt a b)
  | some _, some _ => inferInstanceAs (Decidable (_ < _))
  | some _, none => isFalse id
  | none, some _ => isFalse id
  | none, none => isFalse id

/-- Strict ordering of chunk addresses: ascending chunk index, then
ascending block index inside one SuperChunk. -/
def pairLt (a b : Nat × Option Nat) : Prop :=
  a.1 < b.1 ∨ (a.1 = b.1 ∧ blockLt a.2 b.2)

instance (a b : Nat × Option Nat) : Decidable (pairLt a b) :=
  inferInstanceAs (Decidable (_ ∨ _))

/-- Shape of one entry as the constructor builds it: a SuperChunk at
index `i` keys its constituents `(i, b)` with strictly ascending block
indices. -/
def entryWF (i : Nat) : ChunkEntry → Prop
  | ChunkEntry.chunk _ => True
  | ChunkEntry.superChunk s =>
      (∀ bc ∈ s.chunks, bc.1.1 = i) ∧
      (s.chunks.map (fun bc => bc.1.2)).Pairwise (· < ·)

instance (i : Nat) (e : ChunkEntry) : Decidable (entryWF i e) :=
  match e with
  | ChunkEntry.chunk _ => isTrue trivial
  | ChunkEntry.superChunk _ => inferInstanceAs (Decidable (_ ∧ _))

/-- Shape of the chunk map as the constructor builds it: strictly
ascending chunk indices (`enumerate` yields `0..N-1`), each entry well
formed at its own index. -/
def chunksWF (p : ProgramState) : Prop :=
  (p.chunks.map Prod.fst).Pairwise (· < ·) ∧
  ∀ kv ∈ p.chunks, entryWF kv.1 kv.2

instance (p : ProgramState) : Decidable (chunksWF p) :=
  inferInstanceAs (Decidable (_ ∧ _))

/-- A small program with two ordinary chunks around a two-constituent
SuperChunk, used to instantiate the chunk-map theorems. -/
def c4SampleProgram : ProgramState :=
  ⟨[(0, ChunkEntry.chunk ⟨256, 288, FunctionType.NORMAL, [], [256]⟩),
    (1, ChunkEntry.superChunk
      ⟨[((1, 0), ⟨288, 296, FunctionType.NORMAL, [], [288]⟩),
        ((1, 1), ⟨296, 304, FunctionType.THUNK, [], [296]⟩)]⟩),
    (2, ChunkEntry.chunk ⟨304, 320, FunctionType.EXTERN, [], [304]⟩)],
    [], []⟩

/-! ## Supporting lemmas -/

theorem mem_flatAll {α : Type u} (x : α) (L : List (List α)) :
    x ∈ flatAll L ↔ ∃ l ∈ L, x ∈ l := by
  induction L with
  | nil => simp [flatAll]
  | cons l ls ih => simp [flatAll, ih]

theorem map_flatAll {α : Type u} {β : Type v} (f : α → β) (L : List (List α)) :
    (flatAll L).map f = flatAll (L.map (List.map f)) := by
  induction L with
  | nil => rfl
  | cons l ls ih => simp [flatAll, ih]

theorem pairwise_flatAll {α : Type u} {R : α → α → Prop} {L : List (List α)}
    (h1 : ∀ l ∈ L, l.Pairwise R)
    (h2 : L.Pairwise (fun l1 l2 => ∀ x ∈ l1, ∀ y ∈ l2, R x y)) :
    (flatAll L).Pairwise R := by
  induction L with
  | nil => exact List.Pairwise.nil
  | cons l ls ih =>
      rw [flatAll, List.pairwise_append]
      refine ⟨h1 l (by simp), ih (fun l' hl' => h1 l' (by simp [hl']))
        (List.pairwise_cons.mp h2).2, ?_⟩
      intro a ha b hb
      obtain ⟨l', hl', hbl'⟩ := (mem_flatAll b ls).mp hb
      exact (List.pairwise_cons.mp h2).1 l' hl' a ha b hbl'

theorem alistLookup_eq_none {κ : Type u} {α : Type v} [DecidableEq κ]
    (l : List (κ × α)) (q : κ) :
    alistLookup l q = none ↔ ∀ kv ∈ l, kv.1 ≠ q := by
  induction l with
  | nil => simp [alistLookup]
  | cons kv rest ih =>
      obtain ⟨k, v⟩ := kv
      by_cases hk : k = q <;> simp [alistLookup, hk, ih]

theorem alistLookup_mem {κ : Type u} {α : Type v} [DecidableEq κ]
    {l : List (κ × α)} {q : κ} {v : α} (h : alistLookup l q = some v) :
    (q, v) ∈ l := by
  induction l with
  | nil => simp [alistLookup] at h
  | cons kv rest ih =>
      obtain ⟨k, v'⟩ := kv
      by_cases hk : k = q
      · subst hk
        simp [alistLookup] at h
        simp [h]
      · simp [alistLookup, hk] at h
        simp [ih h]

theorem alistLookup_of_mem {κ : Type u} {α : Type v} [DecidableEq κ]
    {l : List (κ × α)} (hnd : (l.map Prod.fst).Pairwise (· ≠ ·))
    {k : κ} {v : α} (hm : (k, v) ∈ l) : alistLookup l k = some v := by
  induction l with
  | nil => simp at hm
  | cons kv rest ih =>
      obtain ⟨k', v'⟩ := kv
      rw [List.map_cons, List.pairwise_cons] at hnd
      rcases List.mem_cons.mp hm with heq | hrest
      · obtain ⟨h1, h2⟩ := Prod.mk.injEq .. ▸ heq
        simp [alistLookup, h1.symm, h2]
      · have hne : k' ≠ k := by
          intro hcontra
          exact hnd.1 k (by
            exact List.mem_map.mpr ⟨(k, v), hrest, rfl⟩) (by simp [hcontra])
        simp [alistLookup, hne, ih hnd.2 hrest]

theorem get_function_exact (p : ProgramState) (name : String) (normal : Bool) :
    get_function p name false normal =
      match alistLookup p.fun_names name with
      | some f => Except.ok f
      | none => Except.error QuokkaError.valueErrorMissingFunction := rfl

theorem get_function_approx (p : ProgramState) (name : String) (normal : Bool) :
    get_function p name true normal =
      match p.fun_names.find? (approxPred name normal) with
      | some kv => Except.ok kv.2
      | none => Except.error QuokkaError.valueErrorNoMatch := rfl

theorem find?_eq_some_split {α : Type u} (P : α → Bool) (l : List α) (x : α)
    (h : l.find? P = some x) :
    ∃ l1 l2, l = l1 ++ x :: l2 ∧ P x = true ∧ ∀ y ∈ l1, P y = false := by
  induction l with
  | nil => simp at h
  | cons a rest ih =>
      rw [List.find?_cons] at h
      rcases hPa : P a with _ | _
      · rw [hPa] at h
        obtain ⟨l1, l2, hsplit, hx, hl1⟩ := ih h
        refine ⟨a :: l1, l2, by simp [hsplit], hx, ?_⟩
        intro y hy
        rcases List.mem_cons.mp hy with rfl | hy'
        · exact hPa
        · exact hl1 y hy'
      · rw [hPa] at h
        simp only [Option.some.injEq] at h
        exact ⟨[], rest, by simp [h], h ▸ hPa, by simp⟩

theorem map_map_eq {α : Type u} {β γ : Type v} (g : α → β) (f : β → γ)
    (l : List α) : (l.map g).map f = l.map (fun x => f (g x)) := by
  induction l with
  | nil => rfl
  | cons a rest ih => simp [ih]

theorem mem_allFunctionTypes (t : FunctionType) : t ∈ allFunctionTypes := by
  cases t <;> simp [allFunctionTypes]

theorem iter_chunk_none_eq (p : ProgramState) :
    iter_chunk p none = flatAll (p.chunks.map (fun kv => entryValues kv.2)) := by
  have hunfold : iter_chunk p none = flatAll (p.chunks.map (fun kv =>
      match kv.2 with
      | ChunkEntry.superChunk s =>
          s.values.filter (fun c => decide (c.chunk_type ∈ allFunctionTypes))
      | ChunkEntry.chunk c =>
          if c.chunk_type ∈ allFunctionTypes then [c] else [])) := rfl
  rw [hunfold]
  congr 1
  apply List.map_congr_left
  rintro ⟨i, e⟩ -
  match e with
  | ChunkEntry.chunk c =>
      show (if c.chunk_type ∈ allFunctionTypes then [c] else []) = _
      rw [if_pos (mem_allFunctionTypes _)]
      rfl
  | ChunkEntry.superChunk s =>
      show s.values.filter _ = _
      exact List.filter_eq_self.mpr (fun a _ => by simp [mem_allFunctionTypes])

theorem chunksWF_keys_nodup {p : ProgramState} (h : chunksWF p) :
    (p.chunks.map Prod.fst).Pairwise (· ≠ ·) :=
  h.1.imp Nat.ne_of_lt

theorem superChunk_keys_nodup {i : Nat} {s : SuperChunk}
    (h : entryWF i (ChunkEntry.superChunk s)) :
    (s.chunks.map Prod.fst).Pairwise (· ≠ ·) := by
  have h2 := h.2
  rw [List.pairwise_map] at h2 ⊢
  exact h2.imp (fun hlt heq => absurd (heq ▸ hlt) (lt_irrefl _))

theorem get_chunk_at_chunk_entry {p : ProgramState} (h : chunksWF p)
    {i : Nat} {c : Chunk} (hm : (i, ChunkEntry.chunk c) ∈ p.chunks)
    (bi : Option Nat) : get_chunk p i bi = Except.ok c := by
  have hl : alistLookup p.chunks i = some (ChunkEntry.chunk c) :=
    alistLookup_of_mem (chunksWF_keys_nodup h) hm
  simp [get_chunk, hl]

theorem get_chunk_at_super_entry {p : ProgramState} (h : chunksWF p)
    {i : Nat} {s : SuperChunk} (hm : (i, ChunkEntry.superChunk s) ∈ p.chunks)
    {bc : (Nat × Nat) × Chunk} (hbc : bc ∈ s.chunks) :
    get_chunk p i (some bc.1.2) = Except.ok bc.2 := by
  have hl : alistLookup p.chunks i = some (ChunkEntry.superChunk s) :=
    alistLookup_of_mem (chunksWF_keys_nodup h) hm
  have hwf : entryWF i (ChunkEntry.superChunk s) := h.2 _ hm
  have hkey : (i, bc.1.2) = bc.1 := by
    rw [← hwf.1 bc hbc]
  have hlook : alistLookup s.chunks (i, bc.1.2) = some bc.2 := by
    rw [hkey]
    exact alistLookup_of_mem (superChunk_keys_nodup hwf) hbc
  simp [get_chunk, hl, SuperChunk.get_chunk_by_index, hlook]

theorem c4_map_gen (p : ProgramState) (h : chunksWF p)
    (l : List (Nat × ChunkEntry)) (hsub : ∀ kv ∈ l, kv ∈ p.chunks) :
    (flatAll (l.map entryPairs)).map (fun pr => get_chunk p pr.1 pr.2) =
      (flatAll (l.map (fun kv => entryValues kv.2))).map Except.ok := by
  induction l with
  | nil => rfl
  | cons kv rest ih =>
      simp only [List.map_cons, flatAll, List.map_append]
      rw [ih (fun kv' hkv' => hsub kv' (by simp [hkv']))]
      congr 1
      have hkvp := hsub kv (by simp)
      match kv with
      | (i, ChunkEntry.chunk c) =>
          show [get_chunk p i none] = [Except.ok c]
          rw [get_chunk_at_chunk_entry h hkvp none]
      | (i, ChunkEntry.superChunk s) =>
          show (s.chunks.map (fun bc => (i, some bc.1.2))).map _ =
            (s.chunks.map Prod.snd).map Except.ok
          rw [map_map_eq, map_map_eq]
          apply List.map_congr_left
          intro bc hbc
          exact get_chunk_at_super_entry h hkvp hbc

theorem entryPairs_fst {kv : Nat × ChunkEntry} {pr : Nat × Option Nat}
    (h : pr ∈ entryPairs kv) : pr.1 = kv.1 := by
  match kv with
  | (i, ChunkEntry.chunk c) =>
      simp [entryPairs] at h
      simp [h]
  | (i, ChunkEntry.superChunk s) =>
      obtain ⟨bc, hbc, heq⟩ := List.mem_map.mp h
      rw [← heq]

theorem c4_pairwise (p : ProgramState) (h : chunksWF p) :
    (validPairs p).Pairwise pairLt := by
  apply pairwise_flatAll
  · intro l hl
    obtain ⟨kv, hkv, rfl⟩ := List.mem_map.mp hl
    match kv with
    | (i, ChunkEntry.chunk c) => simp [entryPairs]
    | (i, ChunkEntry.superChunk s) =>
        show (s.chunks.map (fun bc => (i, some bc.1.2))).Pairwise pairLt
        rw [List.pairwise_map]
        have h2 := (h.2 _ hkv).2
        rw [List.pairwise_map] at h2
        exact h2.imp (fun hlt => Or.inr ⟨rfl, hlt⟩)
  · rw [List.pairwise_map]
    have h1 := h.1
    rw [List.pairwise_map] at h1
    exact h1.imp (fun hlt x hx y hy =>
      Or.inl (by rw [entryPairs_fst hx, entryPairs_fst hy]; exact hlt))

theorem pairLt_irrefl (a : Nat × Option Nat) : ¬pairLt a a := by
  rintro (h | ⟨-, h⟩)
  · exact lt_irrefl _ h
  · rcases a with ⟨i, _ | b⟩
    · exact h
    · exact lt_irrefl _ h

theorem c4_complete (p : ProgramState) (i : Nat) (bi : Option Nat) (c : Chunk)
    (h : get_chunk p i bi = Except.ok c) : c ∈ iter_chunk p none := by
  rw [iter_chunk_none_eq]
  rcases he : alistLookup p.chunks i with _ | e
  · simp [get_chunk, he] at h
  · refine (mem_flatAll c _).mpr
      ⟨entryValues e, List.mem_map.mpr ⟨(i, e), alistLookup_mem he, rfl⟩, ?_⟩
    match e with
    | ChunkEntry.chunk c' =>
        simp only [get_chunk, he, Except.ok.injEq] at h
        show c ∈ [c']
        simp [h]
    | ChunkEntry.superChunk s =>
        rcases bi with _ | b
        · simp [get_chunk, he] at h
        · simp only [get_chunk, he, SuperChunk.get_chunk_by_index] at h
          rcases hl : alistLookup s.chunks (i, b) with _ | c'
          · rw [hl] at h
            simp at h
          · rw [hl] at h
            simp only [Except.ok.injEq] at h
            show c ∈ s.chunks.map Prod.snd
            rw [← h]
            exact List.mem_map.mpr ⟨((i, b), c'), alistLookup_mem hl, rfl⟩

theorem mem_call_graph_edges {p : ProgramState} {e : Nat × Nat} :
    e ∈ call_graph_edges p ↔ ∃ kv ∈ p.chunks, e ∈ entryEdges kv.2 := by
  rw [call_graph_edges, List.mem_toFinset, mem_flatAll]
  constructor
  · rintro ⟨l, hl, hel⟩
    obtain ⟨kv, hkv, rfl⟩ := List.mem_map.mp hl
    exact ⟨kv, hkv, hel⟩
  · rintro ⟨kv, hkv, hel⟩
    exact ⟨entryEdges kv.2, List.mem_map.mpr ⟨kv, hkv, rfl⟩, hel⟩

theorem mem_call_graph_nodes {p : ProgramState} {v : Nat} :
    v ∈ call_graph_nodes p ↔ ∃ kv ∈ p.chunks, v ∈ entryNodes kv.2 := by
  rw [call_graph_nodes, List.mem_toFinset, mem_flatAll]
  constructor
  · rintro ⟨l, hl, hvl⟩
    obtain ⟨kv, hkv, rfl⟩ := List.mem_map.mp hl
    exact ⟨kv, hkv, hvl⟩
  · rintro ⟨kv, hkv, hvl⟩
    exact ⟨entryNodes kv.2, List.mem_map.mpr ⟨kv, hkv, rfl⟩, hvl⟩

theorem entryEdges_chunk_mem {c : Chunk} {e : Nat × Nat} :
    e ∈ entryEdges (ChunkEntry.chunk c) ↔ e.1 = c.start ∧ e.2 ∈ c.calls := by
  show e ∈ c.calls.map (fun t => (c.start, t)) ↔ _
  constructor
  · intro h
    obtain ⟨t, ht, rfl⟩ := List.mem_map.mp h
    exact ⟨rfl, ht⟩
  · rintro ⟨h1, h2⟩
    refine List.mem_map.mpr ⟨e.2, h2, ?_⟩
    rw [← h1]

theorem entryEdges_super_mem {s : SuperChunk} {e : Nat × Nat} :
    e ∈ entryEdges (ChunkEntry.superChunk s) ↔
      ∃ c2 ∈ s.starts.map Prod.snd, e.1 = c2.start ∧ e.2 ∈ c2.calls := by
  show e ∈ flatAll ((s.starts.map Prod.snd).map
    (fun c => c.calls.map (fun t => (c.start, t)))) ↔ _
  rw [mem_flatAll]
  constructor
  · rintro ⟨l, hl, hel⟩
    obtain ⟨c2, hc2, rfl⟩ := List.mem_map.mp hl
    obtain ⟨t, ht, rfl⟩ := List.mem_map.mp hel
    exact ⟨c2, hc2, rfl, ht⟩
  · rintro ⟨c2, hc2, h1, h2⟩
    refine ⟨c2.calls.map (fun t => (c2.start, t)),
      List.mem_map.mpr ⟨c2, hc2, rfl⟩, List.mem_map.mpr ⟨e.2, h2, ?_⟩⟩
    rw [← h1]

/-- Every edge of the call graph leaves from the start address of some
actual chunk: the ordinary chunk itself, or a constituent of a
SuperChunk — never from a SuperChunk's merged-region start as such. -/
theorem call_graph_edge_source {p : ProgramState} {e : Nat × Nat}
    (he : e ∈ call_graph_edges p) :
    ∃ kv ∈ p.chunks, ∃ c2 ∈ entryConstituents kv.2,
      e.1 = c2.start ∧ e.2 ∈ c2.calls := by
  obtain ⟨kv, hkv, hel⟩ := mem_call_graph_edges.mp he
  rcases hkve : kv.2 with c | s
  · rw [hkve] at hel
    obtain ⟨h1, h2⟩ := entryEdges_chunk_mem.mp hel
    exact ⟨kv, hkv, c, by rw [hkve]; show c ∈ [c]; simp, h1, h2⟩
  · rw [hkve] at hel
    obtain ⟨c2, hc2, h1, h2⟩ := entryEdges_super_mem.mp hel
    exact ⟨kv, hkv, c2, by rw [hkve]; exact hc2, h1, h2⟩

theorem chunk_call_target_node {c : Chunk} {Z : Nat} (hZ : Z ∈ c.calls) :
    Z ∈ entryNodes (ChunkEntry.chunk c) := by
  show Z ∈ c.start :: flatAll (c.calls.map (fun t => [c.start, t]))
  refine List.mem_cons.mpr (Or.inr ?_)
  exact (mem_flatAll Z _).mpr
    ⟨[c.start, Z], List.mem_map.mpr ⟨Z, hZ, rfl⟩, by simp⟩

/-! ## Theorems -/

/-- C1.  The claim says a name collision keeps the existing entry unless
the new function is NORMAL and the existing one is not, so two same-name
same-type insertions leave the first in the index.  The code's collision
test (`program.py:161`) compares the incoming `FunctionType` against the
stored `Function` object, which is never true, so a NORMAL newcomer
replaces the entry even when the holder is NORMAL too: with two NORMAL
functions named "f", the index ends up holding the second. -/
theorem c1_same_name_same_type_last_normal_wins :
    buildFunNames
        [⟨256, "f", FunctionType.NORMAL⟩, ⟨512, "f", FunctionType.NORMAL⟩] =
      [("f", ⟨512, "f", FunctionType.NORMAL⟩)] ∧
    buildFunNames
        [⟨256, "f", FunctionType.NORMAL⟩, ⟨512, "f", FunctionType.NORMAL⟩] ≠
      [("f", ⟨256, "f", FunctionType.NORMAL⟩)] := by
  constructor
  · rfl
  · decide

/-- C2, counterexample.  The claim says `from_binary` never raises when
the exporter exceeds the wall-clock timeout and returns `None` instead;
but the `try` block catches only `subprocess.CalledProcessError`, so on
timeout `subprocess.TimeoutExpired` propagates to the caller. -/
theorem c2_timeout_propagates_counterexample :
    from_binary ⟨true, false, false, ExporterOutcome.timedOut, false⟩ =
      FromBinaryResult.raisesTimeoutExpired ∧
    from_binary ⟨true, false, false, ExporterOutcome.timedOut, false⟩ ≠
      FromBinaryResult.returnsNone := by
  decide

/-- C2, amended.  For an existing executable, `from_binary` returns
`None` when the exporter exits nonzero or completes without producing
the output file, loads an existing export directly without invoking the
exporter, raises `FileNotFoundError` exactly when the executable is
missing — but on timeout it raises `subprocess.TimeoutExpired` instead
of returning `None`. -/
theorem c2_from_binary_amended (env : FromBinaryEnv) :
    (env.execIsFile = false →
      from_binary env = FromBinaryResult.raisesFileNotFound) ∧
    (env.execIsFile = true → env.outputIsFile = true →
      from_binary env = FromBinaryResult.returnsProgram true) ∧
    (env.execIsFile = true → env.outputIsFile = false →
      env.outcome = ExporterOutcome.exitNonzero →
      from_binary env = FromBinaryResult.returnsNone) ∧
    (env.execIsFile = true → env.outputIsFile = false →
      env.outcome = ExporterOutcome.completedOk →
      env.outputFileAfter = false →
      from_binary env = FromBinaryResult.returnsNone) ∧
    (env.execIsFile = true → env.outputIsFile = false →
      env.outcome = ExporterOutcome.timedOut →
      from_binary env = FromBinaryResult.raisesTimeoutExpired) ∧
    (from_binary env = FromBinaryResult.raisesFileNotFound →
      env.execIsFile = false) := by
  obtain ⟨e1, e2, e3, oc, e4⟩ := env
  cases e1 <;> cases e2 <;> cases oc <;> cases e4 <;> simp [from_binary]

/-- C2, witness for the amended theorem at a concrete environment. -/
theorem c2_from_binary_amended_witness :
    from_binary ⟨true, false, false, ExporterOutcome.exitNonzero, false⟩ =
      FromBinaryResult.returnsNone :=
  (c2_from_binary_amended
      ⟨true, false, false, ExporterOutcome.exitNonzero, false⟩).2.2.1
    rfl rfl rfl

/-- C3.  When the stored hash does not match the executable, the
constructor aborts with the hash-mismatch error (the spec's
`IntegrityError`, raised as `quokka.QuokkaError("Hash mismatch")`)
before the chunk map or either function map is ever populated. -/
theorem c3_hash_mismatch_aborts_before_chunks (e : ExportData) :
    (programInitTrace e false).2 = some QuokkaError.hashMismatch ∧
    (programInitTrace e false).1.chunksBuilt = none ∧
    (programInitTrace e false).1.funNamesBuilt = none ∧
    (programInitTrace e false).1.funcsByStartBuilt = none :=
  ⟨rfl, rfl, rfl, rfl⟩

/-- C5.  With exactly two functions named "helper", one NORMAL and one
THUNK, `get_function("helper", approximative=False)` returns the NORMAL
one whichever of the two declaration orders the export uses. -/
theorem c5_normal_beats_thunk_both_orders (fN fT : Function)
    (hnN : fN.name = "helper") (hnT : fT.name = "helper")
    (htN : fN.type = FunctionType.NORMAL)
    (htT : fT.type = FunctionType.THUNK) :
    get_function ⟨[], buildFunNames [fN, fT], []⟩ "helper" false false =
      Except.ok fN ∧
    get_function ⟨[], buildFunNames [fT, fN], []⟩ "helper" false false =
      Except.ok fN := by
  constructor <;>
    simp [get_function, buildFunNames, insertFunName, alistLookup, alistSet,
      funTypeEqFunctionObj, hnN, hnT, htN, htT]

/-- C5, witness at two concrete functions. -/
theorem c5_normal_beats_thunk_witness :
    get_function
        ⟨[], buildFunNames [(⟨256, "helper", FunctionType.NORMAL⟩ : Function),
          ⟨512, "helper", FunctionType.THUNK⟩], []⟩ "helper" false false =
      Except.ok ⟨256, "helper", FunctionType.NORMAL⟩ ∧
    get_function
        ⟨[], buildFunNames [(⟨512, "helper", FunctionType.THUNK⟩ : Function),
          ⟨256, "helper", FunctionType.NORMAL⟩], []⟩ "helper" false false =
      Except.ok ⟨256, "helper", FunctionType.NORMAL⟩ :=
  c5_normal_beats_thunk_both_orders ⟨256, "helper", FunctionType.NORMAL⟩
    ⟨512, "helper", FunctionType.THUNK⟩ rfl rfl rfl rfl

/-- C9.  `get_chunk` on an index holding a SuperChunk and no
`block_index` fails with the super-chunk resolution error (the spec's
`AmbiguousChunkError`) and never returns the SuperChunk itself; on an
index absent from the chunk map it fails with the unknown-index error. -/
theorem c9_super_chunk_needs_block_index (p : ProgramState) (i : Nat)
    (s : SuperChunk)
    (hs : alistLookup p.chunks i = some (ChunkEntry.superChunk s)) :
    get_chunk p i none = Except.error QuokkaError.chunkMissingSuperChunk ∧
    ∀ j bi, alistLookup p.chunks j = none →
      get_chunk p j bi = Except.error QuokkaError.chunkMissingUnknown := by
  constructor
  · simp [get_chunk, hs]
  · intro j bi h
    simp [get_chunk, h]

/-- C9, witness at a concrete one-SuperChunk program. -/
theorem c9_super_chunk_needs_block_index_witness :
    get_chunk
        ⟨[(0, ChunkEntry.superChunk
            ⟨[((0, 0), ⟨256, 288, FunctionType.NORMAL, [], [256]⟩)]⟩)], [], []⟩
        0 none =
      Except.error QuokkaError.chunkMissingSuperChunk :=
  (c9_super_chunk_needs_block_index
      ⟨[(0, ChunkEntry.superChunk
          ⟨[((0, 0), ⟨256, 288, FunctionType.NORMAL, [], [256]⟩)]⟩)], [], []⟩
      0 ⟨[((0, 0), ⟨256, 288, FunctionType.NORMAL, [], [256]⟩)]⟩ rfl).1

/-- C10.  When the entry at `chunk_index` is an ordinary Chunk, the
`block_index` disambiguator is never read: `get_chunk` returns that
Chunk for every supplied value, with no validation and no error. -/
theorem c10_block_index_ignored_on_plain_chunk (p : ProgramState) (i : Nat)
    (c : Chunk) (bi : Option Nat)
    (h : alistLookup p.chunks i = some (ChunkEntry.chunk c)) :
    get_chunk p i bi = Except.ok c := by
  simp [get_chunk, h]

/-- C10, witness: a nonsense `block_index` on an ordinary chunk is
silently ignored. -/
theorem c10_block_index_ignored_witness :
    get_chunk
        ⟨[(0, ChunkEntry.chunk ⟨256, 288, FunctionType.NORMAL, [], [256]⟩)],
          [], []⟩ 0 (some 99) =
      Except.ok ⟨256, 288, FunctionType.NORMAL, [], [256]⟩ :=
  c10_block_index_ignored_on_plain_chunk
    ⟨[(0, ChunkEntry.chunk ⟨256, 288, FunctionType.NORMAL, [], [256]⟩)],
      [], []⟩ 0 ⟨256, 288, FunctionType.NORMAL, [], [256]⟩ (some 99) rfl

/-- The scan of `get_instruction` misses exactly when no entry both
contains the address and holds an instruction head there. -/
theorem get_instruction_loop_error_iff (l : List (Nat × ChunkEntry)) (a : Nat) :
    get_instruction_loop l a = Except.error QuokkaError.indexErrorNoInstruction ↔
    ∀ kv ∈ l, ¬(kv.2.in_chunk a = true ∧
      (kv.2.get_instruction a).isSome = true) := by
  induction l with
  | nil => simp [get_instruction_loop]
  | cons kv rest ih =>
      rcases hin : kv.2.in_chunk a with _ | _
      · simp [get_instruction_loop, hin, ih]
      · rcases hget : kv.2.get_instruction a with _ | ins
        · simp [get_instruction_loop, hin, hget, ih]
        · simp [get_instruction_loop, hin, hget]

/-- A hit of the `get_instruction` scan comes from an entry that
contains the address and answers with that instruction. -/
theorem get_instruction_loop_ok (l : List (Nat × ChunkEntry)) (a : Nat)
    (ins : Instruction) (h : get_instruction_loop l a = Except.ok ins) :
    ∃ kv ∈ l, kv.2.in_chunk a = true ∧ kv.2.get_instruction a = some ins := by
  induction l with
  | nil => simp [get_instruction_loop] at h
  | cons kv rest ih =>
      rcases hin : kv.2.in_chunk a with _ | _
      · rw [get_instruction_loop, hin] at h
        simp only [Bool.false_eq_true, if_false] at h
        obtain ⟨kv', hkv', hp⟩ := ih h
        exact ⟨kv', by simp [hkv'], hp⟩
      · rw [get_instruction_loop, hin] at h
        simp only [if_true] at h
        rcases hget : kv.2.get_instruction a with _ | ins'
        · rw [hget] at h
          obtain ⟨kv', hkv', hp⟩ := ih h
          exact ⟨kv', by simp [hkv'], hp⟩
        · rw [hget] at h
          simp only [Except.ok.injEq] at h
          exact ⟨kv, by simp, hin, h ▸ hget⟩

/-- Any instruction an entry answers with has its head at the queried
address. -/
theorem entry_get_instruction_address (e : ChunkEntry) (a : Nat)
    (ins : Instruction) (h : e.get_instruction a = some ins) :
    ins.address = a := by
  match e with
  | ChunkEntry.chunk c =>
      rw [ChunkEntry.get_instruction, Chunk.get_instruction] at h
      by_cases hmem : a ∈ c.instructions
      · simp [hmem] at h
        simp [← h]
      · simp [hmem] at h
  | ChunkEntry.superChunk s =>
      rw [ChunkEntry.get_instruction] at h
      rcases hf : s.values.find? (fun c => (c.get_instruction a).isSome) with
        _ | c
      · rw [hf] at h; simp at h
      · rw [hf] at h
        by_cases hmem : a ∈ c.instructions
        · simp [Chunk.get_instruction, hmem] at h
          simp [← h]
        · simp [Chunk.get_instruction, hmem] at h

/-- C7.  `get_instruction(address)` fails with the lookup miss
(`IndexError`, the spec's `NotFoundError`) exactly when no chunk's range
contains the address or no containing chunk has an instruction head
there; otherwise it returns the instruction whose head is at exactly
that address in some containing chunk. -/
theorem c7_get_instruction_found_iff (p : ProgramState) (a : Nat) :
    (get_instruction p a =
        Except.error QuokkaError.indexErrorNoInstruction ↔
      ∀ kv ∈ p.chunks, ¬(kv.2.in_chunk a = true ∧
        (kv.2.get_instruction a).isSome = true)) ∧
    (∀ ins, get_instruction p a = Except.ok ins →
      ins.address = a ∧
      ∃ kv ∈ p.chunks, kv.2.in_chunk a = true ∧
        kv.2.get_instruction a = some ins) := by
  constructor
  · exact get_instruction_loop_error_iff p.chunks a
  · intro ins h
    obtain ⟨kv, hkv, hin, hget⟩ := get_instruction_loop_ok p.chunks a ins h
    exact ⟨entry_get_instruction_address kv.2 a ins hget, kv, hkv, hin, hget⟩

/-- C7, witness: an address strictly inside the single chunk's range but
not an instruction head is a miss. -/
theorem c7_get_instruction_found_iff_witness :
    get_instruction
        ⟨[(0, ChunkEntry.chunk ⟨256, 288, FunctionType.NORMAL, [], [256, 260]⟩)],
          [], []⟩ 258 =
      Except.error QuokkaError.indexErrorNoInstruction :=
  (c7_get_instruction_found_iff
      ⟨[(0, ChunkEntry.chunk ⟨256, 288, FunctionType.NORMAL, [], [256, 260]⟩)],
        [], []⟩ 258).1.mpr (by decide)

/-- C8.  Exact lookup (`approximative=False`) of a name no function
bears fails with the lookup miss even when a strict superstring of the
name exists; the approximate scan walks the name index in order with
the substring-and-NORMAL-filter condition, returns the first entry that
passes, and fails only when no entry passes. -/
theorem c8_get_function_scan (p : ProgramState) (nm : String)
    (normalOnly : Bool)
    (hfoo : ∀ kv ∈ p.fun_names, kv.1 ≠ "foo") :
    get_function p "foo" false false =
      Except.error QuokkaError.valueErrorMissingFunction ∧
    (∀ f, get_function p nm true normalOnly = Except.ok f →
      ∃ l1 kv l2, p.fun_names = l1 ++ kv :: l2 ∧ kv.2 = f ∧
        approxPred nm normalOnly kv = true ∧
        ∀ kv2 ∈ l1, approxPred nm normalOnly kv2 = false) ∧
    ((∀ kv ∈ p.fun_names, approxPred nm normalOnly kv = false) →
      get_function p nm true normalOnly =
        Except.error QuokkaError.valueErrorNoMatch) := by
  refine ⟨?_, ?_, ?_⟩
  · have hnone : alistLookup p.fun_names "foo" = none :=
      (alistLookup_eq_none p.fun_names "foo").mpr hfoo
    rw [get_function_exact, hnone]
  · intro f h
    rw [get_function_approx] at h
    rcases hf : p.fun_names.find? (approxPred nm normalOnly) with _ | kv
    · rw [hf] at h; simp at h
    · rw [hf] at h
      simp only [Except.ok.injEq] at h
      obtain ⟨l1, l2, hsplit, hP, hl1⟩ :=
        find?_eq_some_split (approxPred nm normalOnly) p.fun_names kv hf
      exact ⟨l1, kv, l2, hsplit, h, hP, hl1⟩
  · intro hall
    have hnone : p.fun_names.find? (approxPred nm normalOnly) = none :=
      List.find?_eq_none.mpr (fun kv hkv => by simp [hall kv hkv])
    rw [get_function_approx, hnone]

/-- C8, witness: no function is named exactly "foo", yet "foobar"
exists; exact lookup misses, while the approximate scan finds the
"foobar" entry and a scan for an absent substring misses. -/
theorem c8_get_function_scan_witness :
    get_function
        ⟨[], [("foobar", ⟨256, "foobar", FunctionType.NORMAL⟩)], []⟩
        "foo" false false =
      Except.error QuokkaError.valueErrorMissingFunction ∧
    get_function
        ⟨[], [("foobar", ⟨256, "foobar", FunctionType.NORMAL⟩)], []⟩
        "zzz" true false =
      Except.error QuokkaError.valueErrorNoMatch :=
  ⟨(c8_get_function_scan
      ⟨[], [("foobar", ⟨256, "foobar", FunctionType.NORMAL⟩)], []⟩
      "zzz" false (by decide)).1,
    (c8_get_function_scan
      ⟨[], [("foobar", ⟨256, "foobar", FunctionType.NORMAL⟩)], []⟩
      "zzz" false (by decide)).2.2 (by decide)⟩

/-- C4.  Over a chunk map shaped as construction shapes it,
`iter_chunk(None)` yields exactly the chunks that `get_chunk` returns at
the valid `(chunk_index, block_index)` addresses taken in ascending
order — SuperChunks flattened to their constituents — each address
exactly once (the address list is strictly ordered, hence duplicate
free), and conversely every chunk any successful `get_chunk` call can
return is yielded. -/
theorem c4_iter_chunk_exhaustive (p : ProgramState) (h : chunksWF p) :
    (validPairs p).map (fun pr => get_chunk p pr.1 pr.2) =
      (iter_chunk p none).map Except.ok ∧
    (validPairs p).Pairwise pairLt ∧
    (validPairs p).Nodup ∧
    ∀ i bi c, get_chunk p i bi = Except.ok c → c ∈ iter_chunk p none := by
  refine ⟨?_, c4_pairwise p h, ?_, fun i bi c hc => c4_complete p i bi c hc⟩
  · rw [validPairs, iter_chunk_none_eq]
    exact c4_map_gen p h p.chunks (fun kv hkv => hkv)
  · exact (c4_pairwise p h).imp
      (fun hlt heq => absurd (heq ▸ hlt) (pairLt_irrefl _))

/-- C4, witness on a concrete three-entry chunk map with a SuperChunk in
the middle. -/
theorem c4_iter_chunk_exhaustive_witness :
    chunksWF c4SampleProgram ∧
    (validPairs c4SampleProgram).map
        (fun pr => get_chunk c4SampleProgram pr.1 pr.2) =
      (iter_chunk c4SampleProgram none).map Except.ok ∧
    (validPairs c4SampleProgram).Nodup :=
  ⟨by decide, (c4_iter_chunk_exhaustive c4SampleProgram (by decide)).1,
    (c4_iter_chunk_exhaustive c4SampleProgram (by decide)).2.2.1⟩

/-- C6.  Two ordinary chunks calling each other give a call graph of
exactly two nodes and two directed edges forming a 2-cycle; a recorded
call target that is the start of no chunk is a graph node with no
outgoing edge and at least one incoming edge; and every edge leaves from
the start address of an actual chunk — an ordinary chunk or a
SuperChunk constituent — never from a SuperChunk as such. -/
theorem c6_call_graph_shape :
    (∀ A B : Chunk, A.calls = [B.start] → B.calls = [A.start] →
      A.start ≠ B.start →
      call_graph_nodes
          ⟨[(0, ChunkEntry.chunk A), (1, ChunkEntry.chunk B)], [], []⟩ =
        {A.start, B.start} ∧
      (call_graph_nodes
          ⟨[(0, ChunkEntry.chunk A), (1, ChunkEntry.chunk B)], [], []⟩).card
        = 2 ∧
      call_graph_edges
          ⟨[(0, ChunkEntry.chunk A), (1, ChunkEntry.chunk B)], [], []⟩ =
        {(A.start, B.start), (B.start, A.start)} ∧
      (call_graph_edges
          ⟨[(0, ChunkEntry.chunk A), (1, ChunkEntry.chunk B)], [], []⟩).card
        = 2) ∧
    (∀ (p : ProgramState) (i : Nat) (c : Chunk) (Z : Nat),
      (i, ChunkEntry.chunk c) ∈ p.chunks → Z ∈ c.calls →
      (∀ kv ∈ p.chunks, ∀ c2 ∈ entryConstituents kv.2, c2.start ≠ Z) →
      Z ∈ call_graph_nodes p ∧ outDegree p Z = 0 ∧ 1 ≤ inDegree p Z) ∧
    (∀ p : ProgramState, ∀ e ∈ call_graph_edges p,
      ∃ kv ∈ p.chunks, ∃ c2 ∈ entryConstituents kv.2,
        e.1 = c2.start ∧ e.2 ∈ c2.calls) := by
  refine ⟨?_, ?_, fun p e he => call_graph_edge_source he⟩
  · intro A B hA hB hne
    have hnodes : call_graph_nodes
        ⟨[(0, ChunkEntry.chunk A), (1, ChunkEntry.chunk B)], [], []⟩ =
        {A.start, B.start} := by
      ext v
      simp [call_graph_nodes, flatAll, entryNodes, hA, hB]
      tauto
    have hedges : call_graph_edges
        ⟨[(0, ChunkEntry.chunk A), (1, ChunkEntry.chunk B)], [], []⟩ =
        {(A.start, B.start), (B.start, A.start)} := by
      ext e
      simp [call_graph_edges, flatAll, entryEdges, hA, hB, Prod.ext_iff]
    refine ⟨hnodes, ?_, hedges, ?_⟩
    · rw [hnodes]
      exact Finset.card_pair hne
    · rw [hedges]
      exact Finset.card_pair
        (fun hcontra => hne (congrArg Prod.fst hcontra))
  · intro p i c Z hm hZ hno
    refine ⟨?_, ?_, ?_⟩
    · exact mem_call_graph_nodes.mpr
        ⟨(i, ChunkEntry.chunk c), hm, chunk_call_target_node hZ⟩
    · rw [outDegree, Finset.card_eq_zero, Finset.filter_eq_empty_iff]
      intro e he hfst
      obtain ⟨kv, hkv, c2, hc2, h1, h2⟩ := call_graph_edge_source he
      exact hno kv hkv c2 hc2 (h1 ▸ hfst)
    · have hedge : (c.start, Z) ∈ call_graph_edges p :=
        mem_call_graph_edges.mpr ⟨(i, ChunkEntry.chunk c), hm,
          entryEdges_chunk_mem.mpr ⟨rfl, hZ⟩⟩
      exact Finset.card_pos.mpr
        ⟨(c.start, Z), Finset.mem_filter.mpr ⟨hedge, rfl⟩⟩

/-- C6, witness: the concrete 2-cycle and a concrete dangling call
target. -/
theorem c6_call_graph_shape_witness :
    call_graph_edges
        ⟨[(0, ChunkEntry.chunk ⟨256, 288, FunctionType.NORMAL, [512], [256]⟩),
          (1, ChunkEntry.chunk ⟨512, 544, FunctionType.NORMAL, [256], [512]⟩)],
          [], []⟩ =
      {(256, 512), (512, 256)} ∧
    outDegree
        ⟨[(0, ChunkEntry.chunk ⟨256, 288, FunctionType.NORMAL, [999], [256]⟩)],
          [], []⟩ 999 = 0 :=
  ⟨(c6_call_graph_shape.1 ⟨256, 288, FunctionType.NORMAL, [512], [256]⟩
      ⟨512, 544, FunctionType.NORMAL, [256], [512]⟩ rfl rfl (by decide)).2.2.1,
    (c6_call_graph_shape.2.1
      ⟨[(0, ChunkEntry.chunk ⟨256, 288, FunctionType.NORMAL, [999], [256]⟩)],
        [], []⟩
      0 ⟨256, 288, FunctionType.NORMAL, [999], [256]⟩ 999 (by decide)
      (by decide) (by decide)).2.1⟩

end Quokka
